import Mathlib

/-!
Verification development for the document-parser service
(`mcp-servers/document-parser/main.py`).

Strings are modelled as `List Char`.  Python regular-expression matching
(the `re` module with backtracking, leftmost-match, ordered alternation and
greedy quantifiers) is modelled by a small executable engine `mmatch` over a
regex syntax `RE` that covers exactly the constructs used by the source
patterns: character classes, literal (case-insensitive) characters,
concatenation, ordered alternation, star over a character class, and a
single capturing group.  Python `float` values are modelled as rationals
(`ℚ`): every captured string in this program is drawn from the language
`[0-9,]+\.?[0-9]*`, whose comma-stripped forms are exact decimals, so no
floating-point rounding is modelled.
-/

/-- Convert a Lean string literal to the `List Char` representation. -/
def str (s : String) : List Char := s.data

/-- ASCII fragment of Python's `\s` class (`str.strip` / `str.split`
whitespace): space, tab, newline, carriage return, vertical tab, form feed. -/
def pyIsSpace (c : Char) : Bool :=
  c == ' ' || c == '\t' || c == '\n' || c == '\r' || c == '\x0b' || c == '\x0c'

/-- Python's `\d` class restricted to ASCII digits. -/
def pyIsDigit (c : Char) : Bool := '0' ≤ c && c ≤ '9'

/-- Character class `[\s:$]` used by the money-style patterns. -/
def clsSepDollar (c : Char) : Bool := pyIsSpace c || c == ':' || c == '$'

/-- Character class `[\s:]` used by the ratio/percent-style patterns. -/
def clsSep (c : Char) : Bool := pyIsSpace c || c == ':'

/-- Character class `[0-9,]` of the captured numeric group. -/
def clsNumComma (c : Char) : Bool := pyIsDigit c || c == ','

/-- The regex metacharacter `.` without `DOTALL`: any character except newline. -/
def clsAny (c : Char) : Bool := c != '\n'

/-- Regex syntax: exactly the constructs appearing in the source patterns.
`star` is only ever applied to a character class in the source, so it is
restricted to classes here, which keeps the engine structurally terminating. -/
inductive RE where
  | eps : RE
  | cls : (Char → Bool) → RE
  | star : (Char → Bool) → RE
  | cat : RE → RE → RE
  | alt : RE → RE → RE
  | group : RE → RE

/-- All prefixes of the maximal `p`-run of `s`, longest first: the
backtracking order of a greedy `p*`. -/
def starPrefixes (p : Char → Bool) (s : List Char) : List (List Char) :=
  let w := s.takeWhile p
  (List.range (w.length + 1)).map (fun k => w.take (w.length - k))

/-- First-defined capture, like Python keeps the single group's span. -/
def optFirst (a b : Option (List Char)) : Option (List Char) :=
  match a with
  | some g => some g
  | none => b

/-- All ways the pattern can match a prefix of `s`, in Python backtracking
preference order (alternation: left first; star: greedy, longest first).
Each result is the consumed prefix together with the capture of the single
group, when the group participated.  Python's engine returns the head of
this list. -/
def mmatch : RE → List Char → List (List Char × Option (List Char))
  | RE.eps, _ => [([], none)]
  | RE.cls _, [] => []
  | RE.cls p, c :: _ => if p c then [([c], none)] else []
  | RE.star p, s => (starPrefixes p s).map (fun u => (u, none))
  | RE.cat a b, s =>
      (mmatch a s).flatMap (fun x =>
        (mmatch b (s.drop x.1.length)).map (fun y => (x.1 ++ y.1, optFirst x.2 y.2)))
  | RE.alt a b, s => mmatch a s ++ mmatch b s
  | RE.group a, s => (mmatch a s).map (fun x => (x.1, some x.1))

/-- The match Python's engine reports at this exact position, if any. -/
def matchHead (r : RE) (s : List Char) : Option (List Char × Option (List Char)) :=
  match mmatch r s with
  | [] => none
  | m :: _ => some m

/-- `re.search` truthiness: does the pattern match starting at some position? -/
def pySearch (r : RE) : List Char → Bool
  | [] => !(mmatch r []).isEmpty
  | c :: rest => !(mmatch r (c :: rest)).isEmpty || pySearch r rest

/-- Fuel-driven body of `re.finditer`: non-overlapping matches scanned left
to right; after a match the scan resumes at its end (one past it for an
empty match).  Every step strictly shortens the remaining text, so a fuel of
`length + 1` (as supplied by `finditerAux`) can never run out; the fuel only
makes the recursion structural. -/
def finditerFuel (r : RE) : Nat → List Char → List (List Char × Option (List Char))
  | 0, _ => []
  | _ + 1, [] =>
    match matchHead r [] with
    | none => []
    | some m => [m]
  | fuel + 1, c :: rest =>
    match matchHead r (c :: rest) with
    | none => finditerFuel r fuel rest
    | some m => m :: finditerFuel r fuel ((c :: rest).drop (max 1 m.1.length))

/-- `re.finditer` over the whole subject string. -/
def finditerAux (r : RE) (s : List Char) : List (List Char × Option (List Char)) :=
  finditerFuel r (s.length + 1) s

/-- Case-insensitive literal character, as compiled under `re.IGNORECASE`
(ASCII folding). -/
def ciChar (c : Char) : RE := RE.cls (fun x => x.toLower == c.toLower)

/-- Literal string: concatenation of case-insensitive characters. -/
def lit : List Char → RE
  | [] => RE.eps
  | c :: cs => RE.cat (ciChar c) (lit cs)

/-- Literal string from a Lean string literal. -/
def litS (s : String) : RE := lit s.data

/-- `r?`: greedy option, present branch preferred. -/
def opt (r : RE) : RE := RE.alt r RE.eps

/-- `p+` for a character class: one mandatory character then a greedy star. -/
def plus (p : Char → Bool) : RE := RE.cat (RE.cls p) (RE.star p)

/-- Three-way ordered alternation. -/
def alt3 (a b c : RE) : RE := RE.alt a (RE.alt b c)

/-- Four-way ordered alternation. -/
def alt4 (a b c d : RE) : RE := RE.alt a (alt3 b c d)

/-- Boolean test: does `needle` start `hay`? -/
def startsList : List Char → List Char → Bool
  | [], _ => true
  | _ :: _, [] => false
  | c :: cs, x :: xs => c == x && startsList cs xs

/-- Boolean test for Python's `'needle' in hay` substring operator. -/
def containsSub (needle : List Char) : List Char → Bool
  | [] => startsList needle []
  | x :: xs => startsList needle (x :: xs) || containsSub needle xs

/-- `DocumentParser._determine_unit`: infer the unit tag from the matched
context by case-insensitive substring tests, first match wins. -/
def determine_unit (context : List Char) : String :=
  let c := context.map Char.toLower
  if containsSub (str "billion") c || containsSub (str " b") c then "billions"
  else if containsSub (str "million") c || containsSub (str " m") c then "millions"
  else if containsSub (str "thousand") c || containsSub (str " k") c then "thousands"
  else if containsSub (str "%") c || containsSub (str "percent") c then "percentage"
  else if containsSub (str "ratio") c then "ratio"
  else "units"

example : determine_unit (str "total revenue: $1,234.5 million") = "millions" := by decide
example : determine_unit (str "p/e ratio: 18.3") = "ratio" := by decide
example : determine_unit (str "b") = "units" := by decide
example : determine_unit (str "5.2 million, up 3%") = "millions" := by decide

/-- Capturing group `([0-9,]+\.?[0-9]*)`: the single numeric capture. -/
def numGroup : RE :=
  RE.group (RE.cat (plus clsNumComma)
    (RE.cat (opt (RE.cls (fun c => c == '.'))) (RE.star pyIsDigit)))

/-- Optional magnitude suffix `(?:million|billion|thousand|M|B|K)?`,
alternatives in source order. -/
def magSuffix : RE :=
  opt (RE.alt (litS "million") (RE.alt (litS "billion")
    (alt4 (litS "thousand") (litS "M") (litS "B") (litS "K"))))

/-- Tail `[\s:$]*([0-9,]+\.?[0-9]*)\s*(?:million|billion|thousand|M|B|K)?`
shared by the money-style patterns. -/
def moneyTail : RE :=
  RE.cat (RE.star clsSepDollar) (RE.cat numGroup (RE.cat (RE.star pyIsSpace) magSuffix))

/-- Tail `[\s:]*([0-9,]+\.?[0-9]*)` shared by the ratio-style patterns. -/
def ratioTail : RE := RE.cat (RE.star clsSep) numGroup

/-- Tail `[\s:]*([0-9,]+\.?[0-9]*)%?` shared by the percent-style patterns. -/
def pctTail : RE :=
  RE.cat (RE.star clsSep) (RE.cat numGroup (opt (RE.cls (fun c => c == '%'))))

/-- Pattern for `revenue`. -/
def patRevenue : RE :=
  RE.cat (alt4 (litS "revenue") (litS "sales") (litS "net sales") (litS "total revenue"))
    moneyTail

/-- Pattern for `net_income`. -/
def patNetIncome : RE :=
  RE.cat (alt3 (litS "net income") (litS "net profit") (litS "net earnings")) moneyTail

/-- Pattern for `eps`: `(?:earnings per share|eps)[\s:$]*([0-9,]+\.?[0-9]*)`. -/
def patEps : RE :=
  RE.cat (RE.alt (litS "earnings per share") (litS "eps"))
    (RE.cat (RE.star clsSepDollar) numGroup)

/-- Pattern for `pe_ratio`; `price.earnings` has a `.` wildcard. -/
def patPeRatio : RE :=
  RE.cat (alt3 (litS "p/e ratio") (litS "pe ratio")
      (RE.cat (litS "price") (RE.cat (RE.cls clsAny) (litS "earnings"))))
    ratioTail

/-- Pattern for `pb_ratio`. -/
def patPbRatio : RE :=
  RE.cat (alt3 (litS "p/b ratio") (litS "pb ratio")
      (RE.cat (litS "price") (RE.cat (RE.cls clsAny) (litS "book"))))
    ratioTail

/-- Pattern for `debt_to_equity`; `debt.to.equity` has two `.` wildcards. -/
def patDebtToEquity : RE :=
  RE.cat (alt3
      (RE.cat (litS "debt") (RE.cat (RE.cls clsAny)
        (RE.cat (litS "to") (RE.cat (RE.cls clsAny) (litS "equity")))))
      (litS "debt/equity") (litS "d/e"))
    ratioTail

/-- Pattern for `current_ratio`. -/
def patCurrentRatio : RE := RE.cat (litS "current ratio") ratioTail

/-- Pattern for `gross_margin`. -/
def patGrossMargin : RE :=
  RE.cat (RE.alt (litS "gross margin") (litS "gross profit margin")) pctTail

/-- Pattern for `operating_margin`. -/
def patOperatingMargin : RE :=
  RE.cat (RE.alt (litS "operating margin") (litS "operating profit margin")) pctTail

/-- Pattern for `net_margin`. -/
def patNetMargin : RE :=
  RE.cat (RE.alt (litS "net margin") (litS "net profit margin")) pctTail

/-- Pattern for `roe`. -/
def patRoe : RE := RE.cat (RE.alt (litS "return on equity") (litS "roe")) pctTail

/-- Pattern for `roa`. -/
def patRoa : RE := RE.cat (RE.alt (litS "return on assets") (litS "roa")) pctTail

/-- Pattern for `cash_flow`. -/
def patCashFlow : RE :=
  RE.cat (RE.alt (litS "cash flow") (litS "operating cash flow")) moneyTail

/-- Pattern for `market_cap`. -/
def patMarketCap : RE :=
  RE.cat (RE.alt (litS "market cap") (litS "market capitalization")) moneyTail

/-- `DocumentParser._load_financial_patterns`: the registry, in the source's
insertion order (Python dicts iterate in insertion order). -/
def financial_patterns : List (String × RE) :=
  [("revenue", patRevenue), ("net_income", patNetIncome), ("eps", patEps),
   ("pe_ratio", patPeRatio), ("pb_ratio", patPbRatio),
   ("debt_to_equity", patDebtToEquity), ("current_ratio", patCurrentRatio),
   ("gross_margin", patGrossMargin), ("operating_margin", patOperatingMargin),
   ("net_margin", patNetMargin), ("roe", patRoe), ("roa", patRoa),
   ("cash_flow", patCashFlow), ("market_cap", patMarketCap)]

/-- Numeric value of a digit character. -/
def digitVal (c : Char) : Nat := c.toNat - 48

/-- Value of a digit string read in base 10. -/
def natOfDigits (l : List Char) : Nat := l.foldl (fun a c => 10 * a + digitVal c) 0

/-- A Python `float` as reachable from this program's captures: either a
finite value or positive infinity.  Negative values, `-inf` and `nan` are
unreachable (the capture `([0-9,]+\.?[0-9]*)` admits no sign and no
`inf`/`nan` spelling). -/
inductive PyFloat where
  | finite : ℚ → PyFloat
  | inf : PyFloat
deriving DecidableEq, Repr

/-- Smallest positive decimal value whose correctly rounded IEEE-754 double
is out of range: 2^1024 - 2^970, the midpoint between the largest double
(2^1024 - 2^971) and 2^1024.  CPython's `float(str)` is correctly rounded
(round half to even, so the midpoint itself rounds up) and returns `inf`
from this threshold on.  Written as a decimal literal so that kernel
evaluation never recurses through the power; the lemma
`pyFloatInfThresholdNat_eq` below certifies the value. -/
def pyFloatInfThresholdNat : Nat := 179769313486231580793728971405303415079934132710037826936173778980444968292764750946649017977587207096330286416692887910946555547851940402630657488671505820681908902000708383676273854845817711531764475730270069855571366959622842914819860834936475292719074168444365510704342711559699508093042880177904174497792

/-- The overflow threshold of `float(str)` as a rational. -/
def pyFloatInfThreshold : ℚ := mkRat (pyFloatInfThresholdNat : Int) 1

/-- The double `float(str)` returns for an exact non-negative decimal value:
saturates to `inf` at or above the overflow threshold.  Below the
threshold the value is kept as an exact rational: rounding inside the
finite range is not modelled, and no claim under verification depends on
it (the claims use finiteness and values stated exactly in the spec). -/
def floatOfRat (v : ℚ) : PyFloat :=
  if pyFloatInfThreshold ≤ v then PyFloat.inf else PyFloat.finite v

/-- Python `float(s)` on the fragment reachable here: the comma-stripped
captures of `([0-9,]+\.?[0-9]*)`, i.e. digit strings with at most one dot.
`float("")` and `float(".")` raise `ValueError`, modelled as `none`; a
value at or above the overflow threshold comes back as `inf`; no sign,
exponent or special form is reachable from those captures. -/
def pyFloat? (s : List Char) : Option PyFloat :=
  match s.dropWhile pyIsDigit with
  | [] =>
    if (s.takeWhile pyIsDigit).isEmpty then none
    else some (floatOfRat (mkRat (natOfDigits (s.takeWhile pyIsDigit)) 1))
  | c :: frac =>
    if c == '.' && frac.all pyIsDigit && !((s.takeWhile pyIsDigit).isEmpty && frac.isEmpty)
    then some (floatOfRat
      (mkRat (natOfDigits (s.takeWhile pyIsDigit ++ frac)) (10 ^ frac.length)))
    else none

example : pyFloat? (str "1234.5") = some (PyFloat.finite (mkRat 2469 2)) := by decide
example : pyFloat? (str "") = none := by decide
example : pyFloat? (str ".") = none := by decide
example : pyFloat? (str "5.") = some (PyFloat.finite (mkRat 5 1)) := by decide

/-- `value_str = match.group(1).replace(',', '')`. -/
def stripCommas (s : List Char) : List Char := s.filter (fun c => c != ',')

/-- One extracted financial metric (the `FinancialMetric` pydantic model).
`value` is the double produced by `float()` (pydantic's `float` field
accepts `inf`); `confidence` is an exactly representable constant, modelled
as a rational. -/
structure FinancialMetric where
  name : String
  value : PyFloat
  unit : String
  period : String
  source : String
  confidence : ℚ
deriving DecidableEq, Repr

/-- `DocumentParser._extract_financial_metrics`: lowercase the text once,
then for each registry pattern in order take every `finditer` match, parse
group 1 with commas stripped (a failed parse silently skips the match — the
`except (ValueError, IndexError): continue` branch), resolve the unit from
the whole matched span (group 0), and emit a metric with the fixed
`period`/`source`/`confidence` fields. -/
def extract_financial_metrics (text : List Char) : List FinancialMetric :=
  let text_lower := text.map Char.toLower
  financial_patterns.flatMap (fun np =>
    (finditerAux np.2 text_lower).filterMap (fun m =>
      match pyFloat? (stripCommas (m.2.getD [])) with
      | none => none
      | some v =>
        some { name := np.1, value := v, unit := determine_unit m.1,
               period := "current", source := "document_extraction",
               confidence := mkRat 7 10 }))

/-- The table-row heuristic pattern `\s+\d+.*\d+.*\d+` from
`_extract_tables_from_text`. -/
def tablePattern : RE :=
  RE.cat (plus pyIsSpace) (RE.cat (plus pyIsDigit) (RE.cat (RE.star clsAny)
    (RE.cat (plus pyIsDigit) (RE.cat (RE.star clsAny) (plus pyIsDigit)))))

/-- `re.search(r'\s+\d+.*\d+.*\d+', line)` truthiness: the numeric-row test. -/
def rowTest (line : List Char) : Bool := pySearch tablePattern line

/-- Python `text.split('\n')`: split at every separator, keeping empty parts. -/
def pySplitChar (sep : Char) : List Char → List (List Char)
  | [] => [[]]
  | c :: rest =>
    match pySplitChar sep rest with
    | [] => [[]]
    | h :: t => if c == sep then [] :: h :: t else (c :: h) :: t

/-- Python `line.strip()`: drop whitespace from both ends. -/
def pyStrip (s : List Char) : List Char :=
  ((s.dropWhile pyIsSpace).reverse.dropWhile pyIsSpace).reverse

/-- A table in an extraction result.  `extracted` carries the dict
`{'type': 'extracted_table', 'rows': ..., 'confidence': ...}` built by the
text heuristic; `sourceTable` carries the dict
`{'sheet_name': ..., 'data': ..., 'columns': ...}` built from structured
input.  Cell values of structured rows are a tagged union. -/
inductive Cell where
  | num : ℚ → Cell
  | text : List Char → Cell
  | empty : Cell
deriving DecidableEq, Repr

/-- One row of a structured table: ordered (column name, value) pairs. -/
abbrev SheetRow := List (List Char × Cell)

inductive CandidateTable where
  | extracted : List (List Char) → ℚ → CandidateTable
  | sourceTable : List Char → List SheetRow → List (List Char) → CandidateTable
deriving DecidableEq, Repr

/-- Loop body of `_extract_tables_from_text`: walk the lines, growing the
current run with the stripped line when the row test succeeds; otherwise
flush the run as a table when it holds more than two lines, or drop it. -/
def extractTablesGo : List (List Char) → List (List Char) → List CandidateTable →
    List CandidateTable
  | [], _, acc => acc
  | l :: ls, cur, acc =>
    if rowTest l then extractTablesGo ls (cur ++ [pyStrip l]) acc
    else if !cur.isEmpty then
      (if 2 < cur.length
       then extractTablesGo ls [] (acc ++ [CandidateTable.extracted cur (mkRat 6 10)])
       else extractTablesGo ls [] acc)
    else extractTablesGo ls [] acc

/-- `DocumentParser._extract_tables_from_text`: the trailing run still open
after the final line is never flushed. -/
def extract_tables_from_text (text : List Char) : List CandidateTable :=
  extractTablesGo (pySplitChar '\n' text) [] []

/-- A structured tabular source as supplied by the acquisition collaborator
(a pandas DataFrame).  `rendering` models `df.to_string()`, the textual
form produced by the external library. -/
structure DataFrame where
  columns : List (List Char)
  records : List SheetRow
  rendering : List Char
deriving DecidableEq, Repr

/-- One named sheet of a spreadsheet source. -/
structure Sheet where
  sheet_name : List Char
  frame : DataFrame
deriving DecidableEq, Repr

/-- The assembled result of one extraction path (the dict returned by
`parse_pdf` / `parse_excel` / `parse_csv`). -/
structure ExtractionResult where
  extracted_text : List Char
  tables : List CandidateTable
  metrics : List FinancialMetric
  confidence : ℚ
deriving DecidableEq, Repr

/-- Core of `DocumentParser.parse_pdf` after PyPDF2 supplies the page texts:
concatenate pages (each followed by a newline), run the table heuristic and
the metric extractor over the whole text, fixed confidence 0.8. -/
def parse_pdf (pages : List (List Char)) : ExtractionResult :=
  let text := pages.flatMap (fun p => p ++ ['\n'])
  { extracted_text := text,
    tables := extract_tables_from_text text,
    metrics := extract_financial_metrics text,
    confidence := mkRat 8 10 }

/-- Core of `DocumentParser.parse_excel` after pandas supplies the sheets:
per sheet, append a labelled textual rendering to the text, pass the sheet
through as one source-derived table, and extract metrics from the sheet's
rendering alone; fixed confidence 0.9. -/
def parse_excel (sheets : List Sheet) : ExtractionResult :=
  { extracted_text := sheets.flatMap (fun sh =>
      str "Sheet: " ++ sh.sheet_name ++ ['\n'] ++ sh.frame.rendering ++ ['\n', '\n']),
    tables := sheets.map (fun sh =>
      CandidateTable.sourceTable sh.sheet_name sh.frame.records sh.frame.columns),
    metrics := sheets.flatMap (fun sh => extract_financial_metrics sh.frame.rendering),
    confidence := mkRat 9 10 }

/-- Core of `DocumentParser.parse_csv` after pandas supplies the frame: one
source-derived table under the fixed label `csv_data`, metrics from the
frame's rendering, fixed confidence 0.9. -/
def parse_csv (df : DataFrame) : ExtractionResult :=
  { extracted_text := df.rendering,
    tables := [CandidateTable.sourceTable (str "csv_data") df.records df.columns],
    metrics := extract_financial_metrics df.rendering,
    confidence := mkRat 9 10 }

/-! ## Spec-side definitions

The definitions below follow the wording of the specification (not the
source); they exist to be compared with the source-derived definitions
above. -/

/-- Python `str.split()` with no argument, as needed to speak about
"standalone whitespace-separated tokens": split on whitespace runs,
dropping empty tokens.  The first argument accumulates the current token in
reverse. -/
def pyTokensAux : List Char → List Char → List (List Char)
  | cur, [] => if cur.isEmpty then [] else [cur.reverse]
  | cur, c :: rest =>
    if pyIsSpace c then
      (if cur.isEmpty then pyTokensAux [] rest else cur.reverse :: pyTokensAux [] rest)
    else pyTokensAux (c :: cur) rest

/-- Whitespace-separated tokens of a string. -/
def pyTokens (s : List Char) : List (List Char) := pyTokensAux [] s

/-- Modelled from the spec's words for claim C1: the Unit Resolver with
"a standalone `b`/`m`/`k` token" in place of the source's two-character
substring tests `' b'`/`' m'`/`' k'`. -/
def specUnitC1 (context : List Char) : String :=
  let c := context.map Char.toLower
  if containsSub (str "billion") c || (pyTokens c).contains (str "b") then "billions"
  else if containsSub (str "million") c || (pyTokens c).contains (str "m") then "millions"
  else if containsSub (str "thousand") c || (pyTokens c).contains (str "k") then "thousands"
  else if containsSub (str "%") c || containsSub (str "percent") c then "percentage"
  else if containsSub (str "ratio") c then "ratio"
  else "units"

/-- A token is numeric when the extractor's own number parser accepts it
after comma-stripping. -/
def numericToken (t : List Char) : Bool := (pyFloat? (stripCommas t)).isSome

/-- Modelled from the spec's words for claim C2: the line contains at least
three whitespace-separated numeric tokens appearing in sequence. -/
def threeConsecNumeric : List (List Char) → Bool
  | t1 :: t2 :: t3 :: rest =>
    (numericToken t1 && numericToken t2 && numericToken t3) ||
      threeConsecNumeric (t2 :: t3 :: rest)
  | _ => false

/-- Claim C2's numeric-row test, read off the spec sentence. -/
def specRowC2 (line : List Char) : Bool := threeConsecNumeric (pyTokens line)

/-- At least two digits occur in the list. -/
def twoMoreDigits (l : List Char) : Bool := 2 ≤ (l.filter pyIsDigit).length

/-- The amended numeric-row test: some whitespace character is immediately
followed by a digit, and at least two further digits occur after that
digit.  This is the extensional content of `re.search(r'\s+\d+.*\d+.*\d+')`
on a newline-free line. -/
def specRowAmended : List Char → Bool
  | a :: b :: rest =>
    (pyIsSpace a && pyIsDigit b && twoMoreDigits rest) || specRowAmended (b :: rest)
  | _ => false

/-- The closed numeric runs of a line sequence: a run is a maximal block of
consecutive `rowTest` lines that is followed by at least one more line (the
closing non-numeric line); a block still open at the end of input is not a
run. -/
def closedNumericRuns : List (List Char) → List (List (List Char))
  | [] => []
  | l :: ls =>
    if rowTest l then
      match h : List.dropWhile rowTest (l :: ls) with
      | [] => []
      | _ :: rest => List.takeWhile rowTest (l :: ls) :: closedNumericRuns rest
    else closedNumericRuns ls
termination_by ls => ls.length
decreasing_by
  · rename_i l hrow x
    have hle : (List.dropWhile rowTest (l :: t)).length ≤ (l :: t).length :=
      (List.dropWhile_suffix rowTest).length_le
    rw [h] at hle
    simp at hle ⊢
    omega
  · simp

/-- Modelled from the spec's words for claim C4: split into lines, keep
exactly the closed numeric runs of more than two lines, and emit each as a
table of its trimmed lines with confidence 0.6. -/
def specDetect (text : List Char) : List CandidateTable :=
  (closedNumericRuns (pySplitChar '\n' text)).filterMap (fun run =>
    if 2 < run.length
    then some (CandidateTable.extracted (run.map pyStrip) (mkRat 6 10))
    else none)

/-- Emit decision of the detector loop for one closed run of (stripped)
lines: a table when the run has more than two lines, nothing otherwise. -/
def emitRun (run : List (List Char)) : Option CandidateTable :=
  if 2 < run.length then some (CandidateTable.extracted run (mkRat 6 10)) else none

/-- Proof helper: the runs the detector loop will eventually emit when the
pending (already stripped) run is `cur` and the remaining lines are `ls`. -/
def pendingRuns : List (List Char) → List (List Char) → List (List (List Char))
  | cur, ls =>
    match h : List.dropWhile rowTest ls with
    | [] => []
    | _ :: rest => (cur ++ (List.takeWhile rowTest ls).map pyStrip) :: pendingRuns [] rest
termination_by _ ls => ls.length
decreasing_by
  have hle : (List.dropWhile rowTest ls).length ≤ ls.length :=
    (List.dropWhile_suffix rowTest).length_le
  rw [h] at hle
  simp at hle
  omega

/-- The leading literal of every alternative of every registry pattern: a
registry pattern can only match where one of these occurs. -/
def cueStrings : List (List Char) :=
  [str "revenue", str "sales", str "net sales", str "total revenue",
   str "net income", str "net profit", str "net earnings",
   str "earnings per share", str "eps",
   str "p/e ratio", str "pe ratio", str "price",
   str "p/b ratio", str "pb ratio",
   str "debt", str "debt/equity", str "d/e",
   str "current ratio",
   str "gross margin", str "gross profit margin",
   str "operating margin", str "operating profit margin",
   str "net margin", str "net profit margin",
   str "return on equity", str "roe",
   str "return on assets", str "roa",
   str "cash flow", str "operating cash flow",
   str "market cap", str "market capitalization"]

/-- Does the lowercased text contain any registry-pattern lexical cue? -/
def hasCue (text : List Char) : Bool :=
  cueStrings.any (fun w => containsSub w (text.map Char.toLower))

/-! ## Supporting lemmas -/

theorem char_toNat_ofNat_valid {n : Nat} (h : n.isValidChar) : (Char.ofNat n).toNat = n := by
  rw [Char.ofNat, dif_pos h]
  simp [Char.ofNatAux, Char.toNat, UInt32.toNat]

theorem char_toLower_toLower (c : Char) : c.toLower.toLower = c.toLower := by
  unfold Char.toLower
  by_cases h : c.toNat >= 65 ∧ c.toNat <= 90
  · rw [if_pos h]
    have hv : (c.toNat + 32).isValidChar := Or.inl (by omega)
    have ht : (Char.ofNat (c.toNat + 32)).toNat = c.toNat + 32 := char_toNat_ofNat_valid hv
    rw [if_neg (by omega)]
  · rw [if_neg h, if_neg h]

theorem list_map_toLower_idem (t : List Char) :
    (t.map Char.toLower).map Char.toLower = t.map Char.toLower := by
  rw [List.map_map]
  exact List.map_congr_left (fun c _ => char_toLower_toLower c)

theorem extract_depends_only_on_lower (t1 t2 : List Char)
    (h : t1.map Char.toLower = t2.map Char.toLower) :
    extract_financial_metrics t1 = extract_financial_metrics t2 := by
  unfold extract_financial_metrics
  rw [h]

theorem pyFloatInfThresholdNat_eq : pyFloatInfThresholdNat = 2 ^ 1024 - 2 ^ 970 := by
  norm_num [pyFloatInfThresholdNat]

theorem floatOfRat_finite (q v : ℚ) (h : floatOfRat q = PyFloat.finite v) : v = q := by
  unfold floatOfRat at h
  split at h
  · cases h
  · injection h with h1
    exact h1.symm

theorem pyFloat?_nonneg (s : List Char) (v : ℚ)
    (h : pyFloat? s = some (PyFloat.finite v)) : 0 ≤ v := by
  unfold pyFloat? at h
  split at h
  · split at h
    · exact absurd h (by simp)
    · obtain hq := Option.some_inj.mp h
      rw [floatOfRat_finite _ _ hq, Rat.mkRat_eq_div]
      positivity
  · split at h
    · obtain hq := Option.some_inj.mp h
      rw [floatOfRat_finite _ _ hq, Rat.mkRat_eq_div]
      positivity
    · exact absurd h (by simp)

theorem pendingRuns_nil (cur : List (List Char)) : pendingRuns cur [] = [] := by
  rw [pendingRuns]
  rfl

theorem pendingRuns_dropWhile_nil (cur : List (List Char)) (ls : List (List Char))
    (hdw : List.dropWhile rowTest ls = []) : pendingRuns cur ls = [] := by
  rw [pendingRuns]
  split
  · rfl
  · rename_i x rest hx
    rw [hdw] at hx
    cases hx

theorem pendingRuns_cons_neg (cur : List (List Char)) (l : List Char)
    (ls : List (List Char)) (hrow : rowTest l = false) :
    pendingRuns cur (l :: ls) = cur :: pendingRuns [] ls := by
  have hrow' : ¬rowTest l = true := by simp [hrow]
  rw [pendingRuns]
  split
  · rename_i hx
    rw [List.dropWhile_cons_of_neg hrow'] at hx
    cases hx
  · rename_i x rest hx
    rw [List.dropWhile_cons_of_neg hrow'] at hx
    cases hx
    rw [List.takeWhile_cons_of_neg hrow']
    simp

theorem pendingRuns_cons_pos (cur : List (List Char)) (l : List Char)
    (ls : List (List Char)) (hrow : rowTest l = true) :
    pendingRuns cur (l :: ls) = pendingRuns (cur ++ [pyStrip l]) ls := by
  conv_lhs => rw [pendingRuns]
  conv_rhs => rw [pendingRuns]
  have hdw : List.dropWhile rowTest (l :: ls) = List.dropWhile rowTest ls :=
    List.dropWhile_cons_of_pos hrow
  split
  · rename_i hx
    rw [hdw] at hx
    split
    · rfl
    · rename_i y rest hy
      rw [hx] at hy
      cases hy
  · rename_i x rest hx
    rw [hdw] at hx
    split
    · rename_i hy
      rw [hy] at hx
      cases hx
    · rename_i y rest' hy
      rw [hy] at hx
      cases hx
      rw [List.takeWhile_cons_of_pos hrow]
      simp

theorem pendingRuns_pos_cons (cur : List (List Char)) (l : List Char)
    (ls : List (List Char)) (x : List Char) (rest : List (List Char))
    (hrow : rowTest l = true) (hdw : List.dropWhile rowTest ls = x :: rest) :
    pendingRuns cur (l :: ls) =
      (cur ++ (l :: List.takeWhile rowTest ls).map pyStrip) :: pendingRuns [] rest := by
  rw [pendingRuns_cons_pos _ _ _ hrow]
  rw [pendingRuns]
  split
  · rename_i hx
    rw [hdw] at hx
    cases hx
  · rename_i y rest' hy
    rw [hdw] at hy
    cases hy
    simp

theorem closedNumericRuns_nil : closedNumericRuns [] = [] := by
  rw [closedNumericRuns]

theorem closedNumericRuns_cons_neg (l : List Char) (ls : List (List Char))
    (hrow : rowTest l = false) :
    closedNumericRuns (l :: ls) = closedNumericRuns ls := by
  rw [closedNumericRuns]
  simp [hrow]

theorem closedNumericRuns_pos_nil (l : List Char) (ls : List (List Char))
    (hrow : rowTest l = true) (hdw : List.dropWhile rowTest ls = []) :
    closedNumericRuns (l :: ls) = [] := by
  rw [closedNumericRuns]
  simp only [hrow, if_true]
  split
  · rfl
  · rename_i x rest hx
    rw [List.dropWhile_cons_of_pos hrow, hdw] at hx
    cases hx

theorem closedNumericRuns_pos_cons (l : List Char) (ls : List (List Char))
    (x : List Char) (rest : List (List Char))
    (hrow : rowTest l = true) (hdw : List.dropWhile rowTest ls = x :: rest) :
    closedNumericRuns (l :: ls) =
      (l :: List.takeWhile rowTest ls) :: closedNumericRuns rest := by
  rw [closedNumericRuns]
  simp only [hrow, if_true]
  split
  · rename_i hx
    rw [List.dropWhile_cons_of_pos hrow, hdw] at hx
    cases hx
  · rename_i y rest' hy
    rw [List.dropWhile_cons_of_pos hrow, hdw] at hy
    cases hy
    rw [List.takeWhile_cons_of_pos hrow]

theorem extractTablesGo_cons_pos (l : List Char) (ls : List (List Char))
    (cur : List (List Char)) (acc : List CandidateTable) (hrow : rowTest l = true) :
    extractTablesGo (l :: ls) cur acc = extractTablesGo ls (cur ++ [pyStrip l]) acc := by
  simp [extractTablesGo, hrow]

theorem extractTablesGo_cons_neg (l : List Char) (ls : List (List Char))
    (cur : List (List Char)) (acc : List CandidateTable) (hrow : rowTest l = false) :
    extractTablesGo (l :: ls) cur acc =
      extractTablesGo ls [] (acc ++ (emitRun cur).toList) := by
  simp only [extractTablesGo, hrow]
  by_cases hcur : cur.isEmpty
  · have hc : cur = [] := by simpa [List.isEmpty_iff] using hcur
    subst hc
    simp [emitRun]
  · by_cases h2 : 2 < cur.length
    · simp [hcur, h2, emitRun]
    · simp [hcur, h2, emitRun]

theorem go_eq_pendingRuns (n : Nat) : ∀ ls : List (List Char), ls.length ≤ n →
    ∀ cur acc, extractTablesGo ls cur acc =
      acc ++ (pendingRuns cur ls).filterMap emitRun := by
  induction n with
  | zero =>
    intro ls hls cur acc
    have h0 : ls = [] := List.length_eq_zero.mp (Nat.le_zero.mp hls)
    subst h0
    rw [pendingRuns_nil]
    simp [extractTablesGo]
  | succ n ih =>
    intro ls hls cur acc
    cases ls with
    | nil =>
      rw [pendingRuns_nil]
      simp [extractTablesGo]
    | cons l ls' =>
      have hlen : ls'.length ≤ n := by simp at hls; omega
      by_cases hrow : rowTest l
      · rw [extractTablesGo_cons_pos _ _ _ _ hrow, pendingRuns_cons_pos _ _ _ hrow]
        exact ih ls' hlen _ acc
      · have hrow' : rowTest l = false := by simpa using hrow
        rw [extractTablesGo_cons_neg _ _ _ _ hrow', pendingRuns_cons_neg _ _ _ hrow']
        rw [ih ls' hlen [] _]
        cases hcur : emitRun cur with
        | none => simp [List.filterMap_cons, hcur]
        | some tbl => simp [List.filterMap_cons, hcur]

theorem pendingRuns_eq_closed (n : Nat) : ∀ ls : List (List Char), ls.length ≤ n →
    (pendingRuns [] ls).filterMap emitRun =
      (closedNumericRuns ls).filterMap (fun run =>
        if 2 < run.length
        then some (CandidateTable.extracted (run.map pyStrip) (mkRat 6 10))
        else none) := by
  induction n with
  | zero =>
    intro ls hls
    have h0 : ls = [] := List.length_eq_zero.mp (Nat.le_zero.mp hls)
    subst h0
    rw [pendingRuns_nil, closedNumericRuns_nil]
    simp
  | succ n ih =>
    intro ls hls
    cases ls with
    | nil =>
      rw [pendingRuns_nil, closedNumericRuns_nil]
      simp
    | cons l ls' =>
      have hlen : ls'.length ≤ n := by simp at hls; omega
      by_cases hrow : rowTest l
      · cases hx : List.dropWhile rowTest ls' with
        | nil =>
          rw [closedNumericRuns_pos_nil _ _ hrow hx]
          rw [pendingRuns_cons_pos _ _ _ hrow, pendingRuns_dropWhile_nil _ _ hx]
          simp
        | cons x rest =>
          have hrest : rest.length ≤ n := by
            have hle : (List.dropWhile rowTest ls').length ≤ ls'.length :=
              (List.dropWhile_suffix rowTest).length_le
            rw [hx] at hle
            simp at hle
            omega
          rw [pendingRuns_pos_cons [] l ls' x rest hrow hx,
              closedNumericRuns_pos_cons l ls' x rest hrow hx]
          rw [List.filterMap_cons, List.filterMap_cons]
          rw [ih rest hrest]
          simp only [List.nil_append]
          by_cases h2 : 2 < (l :: List.takeWhile rowTest ls').length
          · rw [if_pos h2]
            have h2m : 2 < ((l :: List.takeWhile rowTest ls').map pyStrip).length := by
              rw [List.length_map]
              exact h2
            rw [show emitRun ((l :: List.takeWhile rowTest ls').map pyStrip) =
                  some (CandidateTable.extracted
                    ((l :: List.takeWhile rowTest ls').map pyStrip) (mkRat 6 10)) from by
              unfold emitRun
              rw [if_pos h2m]]
          · rw [if_neg h2]
            have h2m : ¬2 < ((l :: List.takeWhile rowTest ls').map pyStrip).length := by
              rw [List.length_map]
              exact h2
            rw [show emitRun ((l :: List.takeWhile rowTest ls').map pyStrip) = none from by
              unfold emitRun
              rw [if_neg h2m]]
      · have hrow' : rowTest l = false := by simpa using hrow
        rw [pendingRuns_cons_neg _ _ _ hrow', closedNumericRuns_cons_neg _ _ hrow']
        rw [List.filterMap_cons]
        have hcur : emitRun ([] : List (List Char)) = none := by simp [emitRun]
        rw [hcur]
        exact ih ls' hlen

theorem lower_fixed (t : List Char) : ∀ x ∈ t.map Char.toLower, x.toLower = x := by
  intro x hx
  obtain ⟨y, _, rfl⟩ := List.mem_map.mp hx
  exact char_toLower_toLower y

theorem mmatch_cat_nil (a b : RE) (s : List Char) (h : mmatch a s = []) :
    mmatch (RE.cat a b) s = [] := by
  simp [mmatch, h]

theorem mmatch_alt_nil (a b : RE) (s : List Char) (ha : mmatch a s = [])
    (hb : mmatch b s = []) : mmatch (RE.alt a b) s = [] := by
  simp [mmatch, ha, hb]

theorem mmatch_lit_nil (w : List Char) (s : List Char) (hs : ∀ x ∈ s, x.toLower = x)
    (hw : ∀ c ∈ w, c.toLower = c) (h : startsList w s = false) :
    mmatch (lit w) s = [] := by
  induction w generalizing s with
  | nil => simp [startsList] at h
  | cons c cs ih =>
    cases s with
    | nil => simp [lit, mmatch]
    | cons x xs =>
      have hx : x.toLower = x := hs x (by simp)
      have hc : c.toLower = c := hw c (by simp)
      have hp : (x.toLower == c.toLower) = (x == c) := by rw [hx, hc]
      by_cases hid : x = c
      · subst hid
        have hstarts : startsList cs xs = false := by
          simpa [startsList] using h
        have hrec : mmatch (lit cs) xs = [] :=
          ih xs (fun y hy => hs y (by simp [hy])) (fun d hd => hw d (by simp [hd])) hstarts
        simp [lit, mmatch, ciChar, hp, hrec]
      · have hne : (x == c) = false := by simp [hid]
        simp [lit, mmatch, ciChar, hp, hne]

theorem containsSub_false_starts (w : List Char) (s : List Char)
    (h : containsSub w s = false) : ∀ i, startsList w (s.drop i) = false := by
  induction s with
  | nil =>
    intro i
    simpa [containsSub] using h
  | cons x xs ih =>
    have h2 : startsList w (x :: xs) = false ∧ containsSub w xs = false := by
      simpa [containsSub, Bool.or_eq_false_iff] using h
    intro i
    cases i with
    | zero => exact h2.1
    | succ j => exact ih h2.2 j

theorem finditerFuel_nil (r : RE) (f : Nat) :
    ∀ s : List Char, (∀ i, mmatch r (s.drop i) = []) → finditerFuel r f s = [] := by
  induction f with
  | zero => intro s _; rfl
  | succ f ih =>
    intro s h
    cases s with
    | nil =>
      have h0 : mmatch r [] = [] := by simpa using h 0
      simp [finditerFuel, matchHead, h0]
    | cons c cs =>
      have h0 : mmatch r (c :: cs) = [] := by simpa using h 0
      simp only [finditerFuel, matchHead, h0]
      exact ih cs (fun i => by simpa using h (i + 1))

theorem patRevenue_nil (s : List Char) (hs : ∀ x ∈ s, x.toLower = x)
    (h1 : startsList (str "revenue") s = false)
    (h2 : startsList (str "sales") s = false)
    (h3 : startsList (str "net sales") s = false)
    (h4 : startsList (str "total revenue") s = false) :
    mmatch patRevenue s = [] := by
  unfold patRevenue alt4 alt3
  refine mmatch_cat_nil _ _ _ (mmatch_alt_nil _ _ _ ?_ (mmatch_alt_nil _ _ _ ?_
    (mmatch_alt_nil _ _ _ ?_ ?_)))
  · exact mmatch_lit_nil _ _ hs (by decide) h1
  · exact mmatch_lit_nil _ _ hs (by decide) h2
  · exact mmatch_lit_nil _ _ hs (by decide) h3
  · exact mmatch_lit_nil _ _ hs (by decide) h4

theorem patPeRatio_nil (s : List Char) (hs : ∀ x ∈ s, x.toLower = x)
    (h1 : startsList (str "p/e ratio") s = false)
    (h2 : startsList (str "pe ratio") s = false)
    (h3 : startsList (str "price") s = false) :
    mmatch patPeRatio s = [] := by
  unfold patPeRatio alt3
  refine mmatch_cat_nil _ _ _ (mmatch_alt_nil _ _ _ ?_ (mmatch_alt_nil _ _ _ ?_ ?_))
  · exact mmatch_lit_nil _ _ hs (by decide) h1
  · exact mmatch_lit_nil _ _ hs (by decide) h2
  · exact mmatch_cat_nil _ _ _ (mmatch_lit_nil _ _ hs (by decide) h3)

theorem patNetIncome_nil (s : List Char) (hs : ∀ x ∈ s, x.toLower = x)
    (h1 : startsList (str "net income") s = false)
    (h2 : startsList (str "net profit") s = false)
    (h3 : startsList (str "net earnings") s = false) :
    mmatch patNetIncome s = [] := by
  unfold patNetIncome alt3
  refine mmatch_cat_nil _ _ _ (mmatch_alt_nil _ _ _ ?_ (mmatch_alt_nil _ _ _ ?_ ?_))
  · exact mmatch_lit_nil _ _ hs (by decide) h1
  · exact mmatch_lit_nil _ _ hs (by decide) h2
  · exact mmatch_lit_nil _ _ hs (by decide) h3

theorem patEps_nil (s : List Char) (hs : ∀ x ∈ s, x.toLower = x)
    (h1 : startsList (str "earnings per share") s = false)
    (h2 : startsList (str "eps") s = false) :
    mmatch patEps s = [] := by
  unfold patEps
  refine mmatch_cat_nil _ _ _ (mmatch_alt_nil _ _ _ ?_ ?_)
  · exact mmatch_lit_nil _ _ hs (by decide) h1
  · exact mmatch_lit_nil _ _ hs (by decide) h2

theorem patPbRatio_nil (s : List Char) (hs : ∀ x ∈ s, x.toLower = x)
    (h1 : startsList (str "p/b ratio") s = false)
    (h2 : startsList (str "pb ratio") s = false)
    (h3 : startsList (str "price") s = false) :
    mmatch patPbRatio s = [] := by
  unfold patPbRatio alt3
  refine mmatch_cat_nil _ _ _ (mmatch_alt_nil _ _ _ ?_ (mmatch_alt_nil _ _ _ ?_ ?_))
  · exact mmatch_lit_nil _ _ hs (by decide) h1
  · exact mmatch_lit_nil _ _ hs (by decide) h2
  · exact mmatch_cat_nil _ _ _ (mmatch_lit_nil _ _ hs (by decide) h3)

theorem patDebtToEquity_nil (s : List Char) (hs : ∀ x ∈ s, x.toLower = x)
    (h1 : startsList (str "debt") s = false)
    (h2 : startsList (str "debt/equity") s = false)
    (h3 : startsList (str "d/e") s = false) :
    mmatch patDebtToEquity s = [] := by
  unfold patDebtToEquity alt3
  refine mmatch_cat_nil _ _ _ (mmatch_alt_nil _ _ _ ?_ (mmatch_alt_nil _ _ _ ?_ ?_))
  · exact mmatch_cat_nil _ _ _ (mmatch_lit_nil _ _ hs (by decide) h1)
  · exact mmatch_lit_nil _ _ hs (by decide) h2
  · exact mmatch_lit_nil _ _ hs (by decide) h3

theorem patCurrentRatio_nil (s : List Char) (hs : ∀ x ∈ s, x.toLower = x)
    (h1 : startsList (str "current ratio") s = false) :
    mmatch patCurrentRatio s = [] := by
  unfold patCurrentRatio
  exact mmatch_cat_nil _ _ _ (mmatch_lit_nil _ _ hs (by decide) h1)

theorem patGrossMargin_nil (s : List Char) (hs : ∀ x ∈ s, x.toLower = x)
    (h1 : startsList (str "gross margin") s = false)
    (h2 : startsList (str "gross profit margin") s = false) :
    mmatch patGrossMargin s = [] := by
  unfold patGrossMargin
  refine mmatch_cat_nil _ _ _ (mmatch_alt_nil _ _ _ ?_ ?_)
  · exact mmatch_lit_nil _ _ hs (by decide) h1
  · exact mmatch_lit_nil _ _ hs (by decide) h2

theorem patOperatingMargin_nil (s : List Char) (hs : ∀ x ∈ s, x.toLower = x)
    (h1 : startsList (str "operating margin") s = false)
    (h2 : startsList (str "operating profit margin") s = false) :
    mmatch patOperatingMargin s = [] := by
  unfold patOperatingMargin
  refine mmatch_cat_nil _ _ _ (mmatch_alt_nil _ _ _ ?_ ?_)
  · exact mmatch_lit_nil _ _ hs (by decide) h1
  · exact mmatch_lit_nil _ _ hs (by decide) h2

theorem patNetMargin_nil (s : List Char) (hs : ∀ x ∈ s, x.toLower = x)
    (h1 : startsList (str "net margin") s = false)
    (h2 : startsList (str "net profit margin") s = false) :
    mmatch patNetMargin s = [] := by
  unfold patNetMargin
  refine mmatch_cat_nil _ _ _ (mmatch_alt_nil _ _ _ ?_ ?_)
  · exact mmatch_lit_nil _ _ hs (by decide) h1
  · exact mmatch_lit_nil _ _ hs (by decide) h2

theorem patRoe_nil (s : List Char) (hs : ∀ x ∈ s, x.toLower = x)
    (h1 : startsList (str "return on equity") s = false)
    (h2 : startsList (str "roe") s = false) :
    mmatch patRoe s = [] := by
  unfold patRoe
  refine mmatch_cat_nil _ _ _ (mmatch_alt_nil _ _ _ ?_ ?_)
  · exact mmatch_lit_nil _ _ hs (by decide) h1
  · exact mmatch_lit_nil _ _ hs (by decide) h2

theorem patRoa_nil (s : List Char) (hs : ∀ x ∈ s, x.toLower = x)
    (h1 : startsList (str "return on assets") s = false)
    (h2 : startsList (str "roa") s = false) :
    mmatch patRoa s = [] := by
  unfold patRoa
  refine mmatch_cat_nil _ _ _ (mmatch_alt_nil _ _ _ ?_ ?_)
  · exact mmatch_lit_nil _ _ hs (by decide) h1
  · exact mmatch_lit_nil _ _ hs (by decide) h2

theorem patCashFlow_nil (s : List Char) (hs : ∀ x ∈ s, x.toLower = x)
    (h1 : startsList (str "cash flow") s = false)
    (h2 : startsList (str "operating cash flow") s = false) :
    mmatch patCashFlow s = [] := by
  unfold patCashFlow
  refine mmatch_cat_nil _ _ _ (mmatch_alt_nil _ _ _ ?_ ?_)
  · exact mmatch_lit_nil _ _ hs (by decide) h1
  · exact mmatch_lit_nil _ _ hs (by decide) h2

theorem patMarketCap_nil (s : List Char) (hs : ∀ x ∈ s, x.toLower = x)
    (h1 : startsList (str "market cap") s = false)
    (h2 : startsList (str "market capitalization") s = false) :
    mmatch patMarketCap s = [] := by
  unfold patMarketCap
  refine mmatch_cat_nil _ _ _ (mmatch_alt_nil _ _ _ ?_ ?_)
  · exact mmatch_lit_nil _ _ hs (by decide) h1
  · exact mmatch_lit_nil _ _ hs (by decide) h2


/-! ## Claim theorems -/

/-- Claim C1, counterexample: the claim reads the `b`/`m`/`k` cues as
standalone whitespace-separated tokens, but the source tests for the
two-character substrings `' b'`/`' m'`/`' k'`.  On the context `"b"` (a
standalone `b` token with no preceding space) the claimed resolver returns
`billions` while the source returns `units`. -/
theorem C1_unit_resolver_counterexample :
    specUnitC1 (str "b") = "billions" ∧ determine_unit (str "b") = "units" ∧
    determine_unit (str "b") ≠ specUnitC1 (str "b") :=
  ⟨by decide, by decide, by decide⟩

/-- Claim C1, amended: for every context string the Unit Resolver returns
one of the six tags by first-match-wins precedence over case-insensitive
substring cues, where the magnitude letter cues are the substrings
`' b'` / `' m'` / `' k'` (a space followed by the letter) rather than
standalone tokens: `billion` or `' b'` gives billions; else `million` or
`' m'` gives millions; else `thousand` or `' k'` gives thousands; else `%`
or `percent` gives percentage; else `ratio` gives ratio; otherwise units.
In particular a context containing `million` and `%` but no billions cue
resolves to `millions`. -/
theorem C1_unit_resolver_amended (context : List Char) :
    (determine_unit context = "billions" ∨ determine_unit context = "millions" ∨
     determine_unit context = "thousands" ∨ determine_unit context = "percentage" ∨
     determine_unit context = "ratio" ∨ determine_unit context = "units") ∧
    ((containsSub (str "billion") (context.map Char.toLower) ||
        containsSub (str " b") (context.map Char.toLower)) = true →
      determine_unit context = "billions") ∧
    ((containsSub (str "billion") (context.map Char.toLower) ||
        containsSub (str " b") (context.map Char.toLower)) = false →
      (containsSub (str "million") (context.map Char.toLower) ||
        containsSub (str " m") (context.map Char.toLower)) = true →
      determine_unit context = "millions") ∧
    ((containsSub (str "billion") (context.map Char.toLower) ||
        containsSub (str " b") (context.map Char.toLower)) = false →
      (containsSub (str "million") (context.map Char.toLower) ||
        containsSub (str " m") (context.map Char.toLower)) = false →
      (containsSub (str "thousand") (context.map Char.toLower) ||
        containsSub (str " k") (context.map Char.toLower)) = true →
      determine_unit context = "thousands") ∧
    ((containsSub (str "billion") (context.map Char.toLower) ||
        containsSub (str " b") (context.map Char.toLower)) = false →
      (containsSub (str "million") (context.map Char.toLower) ||
        containsSub (str " m") (context.map Char.toLower)) = false →
      (containsSub (str "thousand") (context.map Char.toLower) ||
        containsSub (str " k") (context.map Char.toLower)) = false →
      (containsSub (str "%") (context.map Char.toLower) ||
        containsSub (str "percent") (context.map Char.toLower)) = true →
      determine_unit context = "percentage") ∧
    ((containsSub (str "billion") (context.map Char.toLower) ||
        containsSub (str " b") (context.map Char.toLower)) = false →
      (containsSub (str "million") (context.map Char.toLower) ||
        containsSub (str " m") (context.map Char.toLower)) = false →
      (containsSub (str "thousand") (context.map Char.toLower) ||
        containsSub (str " k") (context.map Char.toLower)) = false →
      (containsSub (str "%") (context.map Char.toLower) ||
        containsSub (str "percent") (context.map Char.toLower)) = false →
      containsSub (str "ratio") (context.map Char.toLower) = true →
      determine_unit context = "ratio") ∧
    ((containsSub (str "billion") (context.map Char.toLower) ||
        containsSub (str " b") (context.map Char.toLower)) = false →
      (containsSub (str "million") (context.map Char.toLower) ||
        containsSub (str " m") (context.map Char.toLower)) = false →
      (containsSub (str "thousand") (context.map Char.toLower) ||
        containsSub (str " k") (context.map Char.toLower)) = false →
      (containsSub (str "%") (context.map Char.toLower) ||
        containsSub (str "percent") (context.map Char.toLower)) = false →
      containsSub (str "ratio") (context.map Char.toLower) = false →
      determine_unit context = "units") ∧
    (containsSub (str "million") (context.map Char.toLower) = true →
      containsSub (str "billion") (context.map Char.toLower) = false →
      containsSub (str " b") (context.map Char.toLower) = false →
      determine_unit context = "millions") := by
  refine ⟨?_, ?_, ?_, ?_, ?_, ?_, ?_, ?_⟩
  · simp only [determine_unit]
    split_ifs <;> tauto
  · intro hb
    simp [determine_unit, hb]
  · intro hb hm
    simp [determine_unit, hb, hm]
  · intro hb hm ht
    simp [determine_unit, hb, hm, ht]
  · intro hb hm ht hp
    simp [determine_unit, hb, hm, ht, hp]
  · intro hb hm ht hp hr
    simp [determine_unit, hb, hm, ht, hp, hr]
  · intro hb hm ht hp hr
    simp [determine_unit, hb, hm, ht, hp, hr]
  · intro hm hbil hbsp
    simp [determine_unit, hm, hbil, hbsp]

/-- Witness for C1's amended theorem at a concrete context containing both
`million` and `%` and no billions cue. -/
theorem C1_unit_resolver_amended_witness :
    determine_unit (str "revenue 5.2 million, up 3%") = "millions" :=
  (C1_unit_resolver_amended (str "revenue 5.2 million, up 3%")).2.2.2.2.2.2.2
    (by decide) (by decide) (by decide)

/-- Claim C3: on `"EPS: 2.15\nP/E Ratio: 18.3"` the Metric Extractor returns
exactly the metric `eps` (2.15, `units`) followed by `pe_ratio` (18.3,
`ratio`): the resolver runs on the whole matched span
`"p/e ratio: 18.3"`, which contains the word `ratio`. -/
theorem C3_eps_pe_example :
    extract_financial_metrics (str "EPS: 2.15\nP/E Ratio: 18.3") =
      [{ name := "eps", value := PyFloat.finite (mkRat 43 20), unit := "units",
         period := "current", source := "document_extraction", confidence := mkRat 7 10 },
       { name := "pe_ratio", value := PyFloat.finite (mkRat 183 10), unit := "ratio",
         period := "current", source := "document_extraction", confidence := mkRat 7 10 }] := by
  decide

/-- Claim C4: the Table Detector emits exactly the closed numeric runs of
more than two lines, each as one table of the trimmed run lines with
confidence 0.6 (`specDetect` spells this out from the spec's words); and on
the three spec instances: three closed numeric lines give one table of
those three trimmed lines, two give none, and a run open at end of input
gives none. -/
theorem C4_table_detector_runs :
    (∀ text : List Char, extract_tables_from_text text = specDetect text) ∧
    extract_tables_from_text (str " 1 2 3\n 4 5 6\n 7 8 9\nend") =
      [CandidateTable.extracted [str "1 2 3", str "4 5 6", str "7 8 9"] (mkRat 6 10)] ∧
    extract_tables_from_text (str " 1 2 3\n 4 5 6\nend") = [] ∧
    extract_tables_from_text (str "end\n 1 2 3\n 4 5 6\n 7 8 9") = [] := by
  refine ⟨?_, by decide, by decide, by decide⟩
  intro text
  unfold extract_tables_from_text specDetect
  rw [go_eq_pendingRuns (pySplitChar '\n' text).length _ le_rfl [] []]
  rw [pendingRuns_eq_closed (pySplitChar '\n' text).length _ le_rfl]
  simp

/-- Claim C5: on `"Total revenue: $1,234.5 million"` the Metric Extractor
returns exactly one metric: `revenue`, value 1234.5 (comma stripped), unit
`millions`, period `current`, confidence 0.7. -/
theorem C5_revenue_example :
    extract_financial_metrics (str "Total revenue: $1,234.5 million") =
      [{ name := "revenue", value := PyFloat.finite (mkRat 2469 2), unit := "millions",
         period := "current", source := "document_extraction", confidence := mkRat 7 10 }] := by
  decide

/-- Claim C6: the Metric Extractor is a total function (it is a Lean
function into lists, so it always returns a sequence); a text with no
registry lexical cue yields the empty sequence, and a match whose capture
fails to parse (here `"Revenue: ,"`, whose capture `","` strips to the
empty string) is silently skipped, yielding no metric rather than an
error. -/
theorem C6_extractor_total_no_cue :
    (∀ t : List Char, hasCue t = false → extract_financial_metrics t = []) ∧
    extract_financial_metrics (str "Revenue: ,") = [] := by
  refine ⟨?_, by decide⟩
  intro t h
  have hsfix : ∀ i, ∀ x ∈ (t.map Char.toLower).drop i, x.toLower = x :=
    fun i x hx => lower_fixed t x (List.mem_of_mem_drop hx)
  have hc : ∀ w ∈ cueStrings, containsSub w (t.map Char.toLower) = false := by
    intro w hw
    simp only [hasCue, List.any_eq_false] at h
    exact Bool.eq_false_iff.mpr (h w hw)
  have hstarts : ∀ w ∈ cueStrings, ∀ i,
      startsList w ((t.map Char.toLower).drop i) = false :=
    fun w hw => containsSub_false_starts w _ (hc w hw)
  unfold extract_financial_metrics
  rw [List.flatMap_eq_nil_iff]
  intro np hnp
  fin_cases hnp
  · have hfa : finditerAux patRevenue (t.map Char.toLower) = [] :=
      finditerFuel_nil _ _ _ (fun i => patRevenue_nil _ (hsfix i)
        (hstarts _ (by decide) i) (hstarts _ (by decide) i)
        (hstarts _ (by decide) i) (hstarts _ (by decide) i))
    simp [hfa]
  · have hfa : finditerAux patNetIncome (t.map Char.toLower) = [] :=
      finditerFuel_nil _ _ _ (fun i => patNetIncome_nil _ (hsfix i)
        (hstarts _ (by decide) i) (hstarts _ (by decide) i) (hstarts _ (by decide) i))
    simp [hfa]
  · have hfa : finditerAux patEps (t.map Char.toLower) = [] :=
      finditerFuel_nil _ _ _ (fun i => patEps_nil _ (hsfix i)
        (hstarts _ (by decide) i) (hstarts _ (by decide) i))
    simp [hfa]
  · have hfa : finditerAux patPeRatio (t.map Char.toLower) = [] :=
      finditerFuel_nil _ _ _ (fun i => patPeRatio_nil _ (hsfix i)
        (hstarts _ (by decide) i) (hstarts _ (by decide) i) (hstarts _ (by decide) i))
    simp [hfa]
  · have hfa : finditerAux patPbRatio (t.map Char.toLower) = [] :=
      finditerFuel_nil _ _ _ (fun i => patPbRatio_nil _ (hsfix i)
        (hstarts _ (by decide) i) (hstarts _ (by decide) i) (hstarts _ (by decide) i))
    simp [hfa]
  · have hfa : finditerAux patDebtToEquity (t.map Char.toLower) = [] :=
      finditerFuel_nil _ _ _ (fun i => patDebtToEquity_nil _ (hsfix i)
        (hstarts _ (by decide) i) (hstarts _ (by decide) i) (hstarts _ (by decide) i))
    simp [hfa]
  · have hfa : finditerAux patCurrentRatio (t.map Char.toLower) = [] :=
      finditerFuel_nil _ _ _ (fun i => patCurrentRatio_nil _ (hsfix i)
        (hstarts _ (by decide) i))
    simp [hfa]
  · have hfa : finditerAux patGrossMargin (t.map Char.toLower) = [] :=
      finditerFuel_nil _ _ _ (fun i => patGrossMargin_nil _ (hsfix i)
        (hstarts _ (by decide) i) (hstarts _ (by decide) i))
    simp [hfa]
  · have hfa : finditerAux patOperatingMargin (t.map Char.toLower) = [] :=
      finditerFuel_nil _ _ _ (fun i => patOperatingMargin_nil _ (hsfix i)
        (hstarts _ (by decide) i) (hstarts _ (by decide) i))
    simp [hfa]
  · have hfa : finditerAux patNetMargin (t.map Char.toLower) = [] :=
      finditerFuel_nil _ _ _ (fun i => patNetMargin_nil _ (hsfix i)
        (hstarts _ (by decide) i) (hstarts _ (by decide) i))
    simp [hfa]
  · have hfa : finditerAux patRoe (t.map Char.toLower) = [] :=
      finditerFuel_nil _ _ _ (fun i => patRoe_nil _ (hsfix i)
        (hstarts _ (by decide) i) (hstarts _ (by decide) i))
    simp [hfa]
  · have hfa : finditerAux patRoa (t.map Char.toLower) = [] :=
      finditerFuel_nil _ _ _ (fun i => patRoa_nil _ (hsfix i)
        (hstarts _ (by decide) i) (hstarts _ (by decide) i))
    simp [hfa]
  · have hfa : finditerAux patCashFlow (t.map Char.toLower) = [] :=
      finditerFuel_nil _ _ _ (fun i => patCashFlow_nil _ (hsfix i)
        (hstarts _ (by decide) i) (hstarts _ (by decide) i))
    simp [hfa]
  · have hfa : finditerAux patMarketCap (t.map Char.toLower) = [] :=
      finditerFuel_nil _ _ _ (fun i => patMarketCap_nil _ (hsfix i)
        (hstarts _ (by decide) i) (hstarts _ (by decide) i))
    simp [hfa]

/-- Witness for C6 at the cue-free text `"hello world"`. -/
theorem C6_extractor_total_no_cue_witness :
    extract_financial_metrics (str "hello world") = [] :=
  C6_extractor_total_no_cue.1 (str "hello world") (by decide)

set_option maxRecDepth 40000 in
/-- Claim C7, counterexample: the capture admits arbitrarily many digits
and `float()` saturates to `inf` from 2^1024 - 2^970 on, so on
`"revenue: "` followed by 309 nines the program emits a metric whose value
is not finite, refuting the claim's finiteness conjunct. -/
theorem C7_value_inf_counterexample :
    extract_financial_metrics (str "revenue: " ++ List.replicate 309 '9') =
      [{ name := "revenue", value := PyFloat.inf, unit := "units",
         period := "current", source := "document_extraction",
         confidence := mkRat 7 10 }] := by
  decide

/-- Claim C7, amended: every emitted metric has the fixed `period`,
`source` and `confidence` fields, its value is non-negative whenever it is
finite (the capture admits no sign) but need not be finite — a capture
whose decimal value reaches the double-precision overflow threshold is
emitted with value `inf` — and its unit is resolved by the Unit Resolver
from the whole matched span (group 0) of some registry-pattern match. -/
theorem C7_metric_fixed_fields (text : List Char) (m : FinancialMetric)
    (h : m ∈ extract_financial_metrics text) :
    m.period = "current" ∧ m.source = "document_extraction" ∧
    m.confidence = mkRat 7 10 ∧ (∀ v : ℚ, m.value = PyFloat.finite v → 0 ≤ v) ∧
    ∃ np ∈ financial_patterns, ∃ mt ∈ finditerAux np.2 (text.map Char.toLower),
      m.name = np.1 ∧ m.unit = determine_unit mt.1 ∧
      pyFloat? (stripCommas (mt.2.getD [])) = some m.value := by
  unfold extract_financial_metrics at h
  simp only [List.mem_flatMap, List.mem_filterMap] at h
  obtain ⟨np, hnp, mt, hmt, hm⟩ := h
  cases hv : pyFloat? (stripCommas (mt.2.getD [])) with
  | none => rw [hv] at hm; simp at hm
  | some v =>
    rw [hv] at hm
    simp only [Option.some.injEq] at hm
    subst hm
    refine ⟨rfl, rfl, rfl, ?_, np, hnp, mt, hmt, rfl, rfl, hv⟩
    intro w hw
    exact pyFloat?_nonneg _ w (hv.trans (congrArg some hw))

/-- Witness for C7's amended theorem at the revenue example metric. -/
theorem C7_metric_fixed_fields_witness :
    ({ name := "revenue", value := PyFloat.finite (mkRat 2469 2), unit := "millions",
       period := "current", source := "document_extraction",
       confidence := mkRat 7 10 } : FinancialMetric).period = "current" :=
  (C7_metric_fixed_fields (str "Total revenue: $1,234.5 million")
    { name := "revenue", value := PyFloat.finite (mkRat 2469 2), unit := "millions",
      period := "current", source := "document_extraction",
      confidence := mkRat 7 10 } (by decide)).1

/-- Claim C8: the overall confidence is a constant of the extraction path —
0.8 for the PDF-text path and 0.9 for both structured paths — for every
input, hence never computed from the constituent metric or table
confidences. -/
theorem C8_confidence_by_path :
    (∀ pages : List (List Char), (parse_pdf pages).confidence = mkRat 8 10) ∧
    (∀ sheets : List Sheet, (parse_excel sheets).confidence = mkRat 9 10) ∧
    (∀ df : DataFrame, (parse_csv df).confidence = mkRat 9 10) :=
  ⟨fun _ => rfl, fun _ => rfl, fun _ => rfl⟩

/-- Claim C9: the structured-sheet path passes every sheet through as one
source-derived table, in sheet order, with its own columns and records, so
`tables` has length `n` for `n` sheets (2 for a two-sheet input), and its
metrics are the concatenation of per-sheet extraction in sheet order. -/
theorem C9_excel_passthrough :
    ∀ sheets : List Sheet,
      (parse_excel sheets).tables = sheets.map (fun sh =>
        CandidateTable.sourceTable sh.sheet_name sh.frame.records sh.frame.columns) ∧
      (parse_excel sheets).tables.length = sheets.length ∧
      (parse_excel sheets).metrics = sheets.flatMap (fun sh =>
        extract_financial_metrics sh.frame.rendering) ∧
      (∀ s1 s2 : Sheet, (parse_excel [s1, s2]).tables.length = 2) := by
  intro sheets
  refine ⟨rfl, ?_, rfl, fun s1 s2 => rfl⟩
  simp [parse_excel]

/-- Claim C10: the Metric Extractor lowercases its input once before
matching, so it returns the same metrics on a text and on its lowercased
form, and more generally on any two texts with the same lowercasing. -/
theorem C10_case_insensitive :
    (∀ t : List Char,
      extract_financial_metrics (t.map Char.toLower) = extract_financial_metrics t) ∧
    (∀ t1 t2 : List Char, t1.map Char.toLower = t2.map Char.toLower →
      extract_financial_metrics t1 = extract_financial_metrics t2) :=
  ⟨fun t => extract_depends_only_on_lower _ _ (list_map_toLower_idem t),
   extract_depends_only_on_lower⟩

/-- Witness for C10 on a mixed-case/lowercase pair. -/
theorem C10_case_insensitive_witness :
    extract_financial_metrics (str "EPS: 2.15") = extract_financial_metrics (str "eps: 2.15") :=
  C10_case_insensitive.2 (str "EPS: 2.15") (str "eps: 2.15") (by decide)

theorem mem_mmatch_cls (p : Char → Bool) (s : List Char)
    (m : List Char × Option (List Char)) :
    m ∈ mmatch (RE.cls p) s ↔ ∃ c t, s = c :: t ∧ p c = true ∧ m = ([c], none) := by
  cases s with
  | nil => simp [mmatch]
  | cons c t =>
    by_cases hp : p c
    · simp only [mmatch, hp, if_true, List.mem_singleton]
      constructor
      · intro hm
        exact ⟨c, t, rfl, hp, hm⟩
      · rintro ⟨c', t', heq, hp', hm⟩
        cases heq
        exact hm
    · simp only [mmatch]
      rw [if_neg (by simp [hp])]
      simp only [List.not_mem_nil, false_iff]
      rintro ⟨c', t', heq, hp', -⟩
      cases heq
      exact hp hp'

theorem mem_starPrefixes (p : Char → Bool) (s : List Char) (u : List Char) :
    u ∈ starPrefixes p s ↔
      ∃ j, j ≤ (s.takeWhile p).length ∧ u = (s.takeWhile p).take j := by
  unfold starPrefixes
  simp only [List.mem_map, List.mem_range]
  constructor
  · rintro ⟨k, hk, rfl⟩
    exact ⟨(s.takeWhile p).length - k, by omega, rfl⟩
  · rintro ⟨j, hj, rfl⟩
    refine ⟨(s.takeWhile p).length - j, by omega, ?_⟩
    congr 1
    omega

theorem isPre_takeWhile_of_all (p : Char → Bool) (u s : List Char)
    (hu : u <+: s) (hall : u.all p = true) : u <+: s.takeWhile p := by
  induction u generalizing s with
  | nil => simp
  | cons a u' ih =>
    obtain ⟨t, ht⟩ := hu
    subst ht
    have hall2 : p a = true ∧ u'.all p = true := by simpa [List.all_cons] using hall
    rw [List.cons_append, List.takeWhile_cons_of_pos hall2.1]
    exact List.cons_prefix_cons.mpr ⟨rfl, ih (u' ++ t) (List.prefix_append u' t) hall2.2⟩

theorem mem_mmatch_star (p : Char → Bool) (s : List Char) (u : List Char)
    (g : Option (List Char)) :
    (u, g) ∈ mmatch (RE.star p) s ↔ u <+: s ∧ u.all p = true ∧ g = none := by
  simp only [mmatch, List.mem_map]
  constructor
  · rintro ⟨u', hu', heq⟩
    injection heq with h1 h2
    subst h1
    subst h2
    rw [mem_starPrefixes] at hu'
    obtain ⟨j, hj, rfl⟩ := hu'
    refine ⟨?_, ?_, rfl⟩
    · exact (List.take_prefix _ _).trans (List.takeWhile_prefix p)
    · rw [List.all_eq_true]
      intro x hx
      exact List.mem_takeWhile_imp (List.mem_of_mem_take hx)
  · rintro ⟨hu, hall, rfl⟩
    refine ⟨u, ?_, rfl⟩
    rw [mem_starPrefixes]
    have hpre : u <+: s.takeWhile p := isPre_takeWhile_of_all p u s hu hall
    exact ⟨u.length, hpre.length_le, List.prefix_iff_eq_take.mp hpre⟩

theorem mem_mmatch_cat (a b : RE) (s : List Char) (m : List Char × Option (List Char)) :
    m ∈ mmatch (RE.cat a b) s ↔
      ∃ x, x ∈ mmatch a s ∧ ∃ y, y ∈ mmatch b (s.drop x.1.length) ∧
        m = (x.1 ++ y.1, optFirst x.2 y.2) := by
  simp only [mmatch, List.mem_flatMap, List.mem_map]
  constructor
  · rintro ⟨x, hx, y, hy, rfl⟩
    exact ⟨x, hx, y, hy, rfl⟩
  · rintro ⟨x, hx, y, hy, rfl⟩
    exact ⟨x, hx, y, hy, rfl⟩

theorem mem_mmatch_alt (a b : RE) (s : List Char) (m : List Char × Option (List Char)) :
    m ∈ mmatch (RE.alt a b) s ↔ m ∈ mmatch a s ∨ m ∈ mmatch b s := by
  simp [mmatch]

theorem mmatch_consumes (r : RE) : ∀ (s : List Char) (m : List Char × Option (List Char)),
    m ∈ mmatch r s → m.1 <+: s := by
  induction r with
  | eps =>
    intro s m hm
    simp [mmatch] at hm
    subst hm
    simp
  | cls p =>
    intro s m hm
    rw [mem_mmatch_cls] at hm
    obtain ⟨c, t, rfl, hp, rfl⟩ := hm
    simp [List.cons_prefix_cons]
  | star p =>
    intro s m hm
    obtain ⟨u, g⟩ := m
    rw [mem_mmatch_star] at hm
    exact hm.1
  | cat a b iha ihb =>
    intro s m hm
    rw [mem_mmatch_cat] at hm
    obtain ⟨x, hx, y, hy, rfl⟩ := hm
    have hxp : x.1 <+: s := iha s x hx
    obtain ⟨t, ht⟩ := hxp
    have hdrop : s.drop x.1.length = t := by
      rw [← ht, List.drop_left]
    have hyp : y.1 <+: t := by
      rw [← hdrop]
      exact ihb _ y hy
    obtain ⟨t', ht'⟩ := hyp
    exact ⟨t', by rw [← ht, ← ht', List.append_assoc]⟩
  | alt a b iha ihb =>
    intro s m hm
    rw [mem_mmatch_alt] at hm
    cases hm with
    | inl h => exact iha s m h
    | inr h => exact ihb s m h
  | group a iha =>
    intro s m hm
    simp only [mmatch, List.mem_map] at hm
    obtain ⟨x, hx, rfl⟩ := hm
    exact iha s x hx

theorem mem_mmatch_plus (p : Char → Bool) (s : List Char)
    (m : List Char × Option (List Char)) :
    m ∈ mmatch (plus p) s ↔
      ∃ c rest u, s = c :: rest ∧ p c = true ∧ u <+: rest ∧ u.all p = true ∧
        m = (c :: u, none) := by
  unfold plus
  rw [mem_mmatch_cat]
  constructor
  · rintro ⟨x, hx, y, hy, rfl⟩
    rw [mem_mmatch_cls] at hx
    obtain ⟨c, t, rfl, hp, rfl⟩ := hx
    obtain ⟨u, g⟩ := y
    simp only [List.length_singleton, List.drop_succ_cons, List.drop_zero] at hy
    rw [mem_mmatch_star] at hy
    obtain ⟨hu, hall, rfl⟩ := hy
    exact ⟨c, t, u, rfl, hp, hu, hall, rfl⟩
  · rintro ⟨c, rest, u, rfl, hp, hu, hall, rfl⟩
    refine ⟨([c], none), ?_, (u, none), ?_, rfl⟩
    · rw [mem_mmatch_cls]
      exact ⟨c, rest, rfl, hp, rfl⟩
    · simp only [List.length_singleton, List.drop_succ_cons, List.drop_zero]
      rw [mem_mmatch_star]
      exact ⟨hu, hall, rfl⟩

theorem pySearch_iff (r : RE) (s : List Char) :
    pySearch r s = true ↔ ∃ pre post, s = pre ++ post ∧ mmatch r post ≠ [] := by
  have hb : ∀ L : List (List Char × Option (List Char)), (!L.isEmpty) = true ↔ L ≠ [] := by
    intro L
    cases L <;> simp
  induction s with
  | nil =>
    simp only [pySearch]
    rw [hb]
    constructor
    · intro h
      exact ⟨[], [], rfl, h⟩
    · rintro ⟨pre, post, heq, hne⟩
      have hpost : post = [] := (List.append_eq_nil.mp heq.symm).2
      subst hpost
      exact hne
  | cons c cs ih =>
    simp only [pySearch, Bool.or_eq_true]
    rw [hb]
    constructor
    · intro h
      cases h with
      | inl h => exact ⟨[], c :: cs, rfl, h⟩
      | inr h =>
        obtain ⟨pre, post, heq, hne⟩ := ih.mp h
        exact ⟨c :: pre, post, by rw [heq, List.cons_append], hne⟩
    · rintro ⟨pre, post, heq, hne⟩
      cases pre with
      | nil =>
        left
        rw [List.nil_append] at heq
        subst heq
        exact hne
      | cons p pre' =>
        right
        apply ih.mpr
        rw [List.cons_append] at heq
        injection heq with h1 h2
        exact ⟨pre', post, h2, hne⟩

theorem specRowAmended_cons_of (x : Char) (l : List Char)
    (h : specRowAmended l = true) : specRowAmended (x :: l) = true := by
  cases l with
  | nil => simp [specRowAmended] at h
  | cons y ys =>
    show ((pyIsSpace x && pyIsDigit y && twoMoreDigits ys) || specRowAmended (y :: ys)) = true
    simp [h]

theorem specRowAmended_iff_aux (n : Nat) : ∀ l : List Char, l.length ≤ n →
    (specRowAmended l = true ↔
      ∃ pre a b rest, l = pre ++ a :: b :: rest ∧ pyIsSpace a = true ∧
        pyIsDigit b = true ∧ 2 ≤ (rest.filter pyIsDigit).length) := by
  induction n with
  | zero =>
    intro l hl
    have h0 : l = [] := List.length_eq_zero.mp (Nat.le_zero.mp hl)
    subst h0
    simp [specRowAmended]
  | succ n ih =>
    intro l hl
    cases l with
    | nil => simp [specRowAmended]
    | cons a l' =>
      cases l' with
      | nil =>
        simp only [specRowAmended]
        constructor
        · intro h
          cases h
        · rintro ⟨pre, a', b', rest, heq, -, -, -⟩
          cases pre with
          | nil => simp at heq
          | cons p pre' =>
            rw [List.cons_append] at heq
            injection heq with h1 h2
            simp at h2
      | cons b rest =>
        have hlen : (b :: rest).length ≤ n := by simp at hl ⊢; omega
        constructor
        · intro h
          have h2 : (pyIsSpace a && pyIsDigit b && twoMoreDigits rest) = true ∨
              specRowAmended (b :: rest) = true := by
            simpa [specRowAmended, Bool.or_eq_true] using h
          cases h2 with
          | inl hcond =>
            simp only [Bool.and_eq_true] at hcond
            refine ⟨[], a, b, rest, rfl, hcond.1.1, hcond.1.2, ?_⟩
            simpa [twoMoreDigits] using hcond.2
          | inr hrec =>
            obtain ⟨pre, a', b', rest', heq, hws, hd, hfil⟩ := (ih _ hlen).mp hrec
            exact ⟨a :: pre, a', b', rest', by rw [heq, List.cons_append], hws, hd, hfil⟩
        · rintro ⟨pre, a', b', rest', heq, hws, hd, hfil⟩
          cases pre with
          | nil =>
            simp only [List.nil_append] at heq
            injection heq with h1 h2
            injection h2 with h2a h2b
            subst h1
            subst h2a
            subst h2b
            show ((pyIsSpace a && pyIsDigit b && twoMoreDigits rest) || _) = true
            simp [hws, hd, twoMoreDigits, hfil]
          | cons p pre' =>
            rw [List.cons_append] at heq
            injection heq with h1 h2
            apply specRowAmended_cons_of
            exact (ih _ hlen).mpr ⟨pre', a', b', rest', h2, hws, hd, hfil⟩

theorem specRowAmended_iff (l : List Char) :
    specRowAmended l = true ↔
      ∃ pre a b rest, l = pre ++ a :: b :: rest ∧ pyIsSpace a = true ∧
        pyIsDigit b = true ∧ 2 ≤ (rest.filter pyIsDigit).length :=
  specRowAmended_iff_aux l.length l le_rfl

theorem filter_one_decomp (p : Char → Bool) : ∀ l : List Char,
    1 ≤ (l.filter p).length → ∃ m1 x m2, l = m1 ++ x :: m2 ∧ p x = true := by
  intro l
  induction l with
  | nil => simp
  | cons c cs ih =>
    intro h
    by_cases hp : p c
    · exact ⟨[], c, cs, rfl, hp⟩
    · have h' : 1 ≤ (cs.filter p).length := by
        simpa [List.filter_cons, hp] using h
      obtain ⟨m1, x, m2, rfl, hx⟩ := ih h'
      exact ⟨c :: m1, x, m2, rfl, hx⟩

theorem filter_two_decomp (p : Char → Bool) : ∀ l : List Char,
    2 ≤ (l.filter p).length →
    ∃ m1 x m2 y m3, l = m1 ++ x :: (m2 ++ y :: m3) ∧ p x = true ∧ p y = true := by
  intro l
  induction l with
  | nil => simp
  | cons c cs ih =>
    intro h
    by_cases hp : p c
    · have h' : 1 ≤ (cs.filter p).length := by
        simp [List.filter_cons, hp] at h
        omega
      obtain ⟨m1, y, m2, rfl, hy⟩ := filter_one_decomp p cs h'
      exact ⟨[], c, m1, y, m2, rfl, hp, hy⟩
    · have h' : 2 ≤ (cs.filter p).length := by
        simpa [List.filter_cons, hp] using h
      obtain ⟨m1, x, m2, y, m3, rfl, hx, hy⟩ := ih h'
      exact ⟨c :: m1, x, m2, y, m3, rfl, hx, hy⟩

theorem rowTest_of_specRow (line : List Char) (hnl : '\n' ∉ line)
    (h : specRowAmended line = true) : rowTest line = true := by
  obtain ⟨pre, a, b, rest, heq, hws, hdg, hfil⟩ := (specRowAmended_iff line).mp h
  obtain ⟨m1, x, m2, y, m3, hrest, hx, hy⟩ := filter_two_decomp pyIsDigit rest hfil
  subst hrest
  subst heq
  have hany : ∀ c ∈ m1 ++ x :: (m2 ++ y :: m3), clsAny c = true := by
    intro c hc
    have hcl : c ∈ pre ++ a :: b :: (m1 ++ x :: (m2 ++ y :: m3)) := by
      simp only [List.mem_append, List.mem_cons]
      right
      right
      right
      simpa using hc
    have hne : c ≠ '\n' := fun hcn => hnl (hcn ▸ hcl)
    simpa [clsAny] using hne
  unfold rowTest
  rw [pySearch_iff]
  refine ⟨pre, a :: b :: (m1 ++ x :: (m2 ++ y :: m3)), rfl, ?_⟩
  have h6 : ([y], (none : Option (List Char))) ∈ mmatch (plus pyIsDigit) (y :: m3) := by
    rw [mem_mmatch_plus]
    exact ⟨y, m3, [], rfl, hy, List.nil_prefix, rfl, rfl⟩
  have h5 : (m2, (none : Option (List Char))) ∈ mmatch (RE.star clsAny) (m2 ++ y :: m3) := by
    rw [mem_mmatch_star]
    refine ⟨List.prefix_append m2 _, ?_, rfl⟩
    rw [List.all_eq_true]
    intro c hc
    exact hany c (by simp [hc])
  have h56 : (m2 ++ [y], (none : Option (List Char))) ∈
      mmatch (RE.cat (RE.star clsAny) (plus pyIsDigit)) (m2 ++ y :: m3) := by
    rw [mem_mmatch_cat]
    refine ⟨(m2, none), h5, ([y], none), ?_, rfl⟩
    rw [List.drop_left]
    exact h6
  have h456 : ([x] ++ (m2 ++ [y]), (none : Option (List Char))) ∈
      mmatch (RE.cat (plus pyIsDigit) (RE.cat (RE.star clsAny) (plus pyIsDigit)))
        (x :: (m2 ++ y :: m3)) := by
    rw [mem_mmatch_cat]
    refine ⟨([x], none), ?_, (m2 ++ [y], none), ?_, rfl⟩
    · rw [mem_mmatch_plus]
      exact ⟨x, m2 ++ y :: m3, [], rfl, hx, List.nil_prefix, rfl, rfl⟩
    · simp only [List.length_singleton, List.drop_succ_cons, List.drop_zero]
      exact h56
  have h3456 : (m1 ++ ([x] ++ (m2 ++ [y])), (none : Option (List Char))) ∈
      mmatch (RE.cat (RE.star clsAny)
        (RE.cat (plus pyIsDigit) (RE.cat (RE.star clsAny) (plus pyIsDigit))))
        (m1 ++ x :: (m2 ++ y :: m3)) := by
    rw [mem_mmatch_cat]
    refine ⟨(m1, none), ?_, ([x] ++ (m2 ++ [y]), none), ?_, rfl⟩
    · rw [mem_mmatch_star]
      refine ⟨List.prefix_append m1 _, ?_, rfl⟩
      rw [List.all_eq_true]
      intro c hc
      exact hany c (by simp [hc])
    · rw [List.drop_left]
      exact h456
  apply List.ne_nil_of_mem
    (a := ([a] ++ ([b] ++ (m1 ++ ([x] ++ (m2 ++ [y])))), (none : Option (List Char))))
  show _ ∈ mmatch (RE.cat (plus pyIsSpace) (RE.cat (plus pyIsDigit)
      (RE.cat (RE.star clsAny)
        (RE.cat (plus pyIsDigit) (RE.cat (RE.star clsAny) (plus pyIsDigit))))))
    (a :: b :: (m1 ++ x :: (m2 ++ y :: m3)))
  rw [mem_mmatch_cat]
  refine ⟨([a], none), ?_, ([b] ++ (m1 ++ ([x] ++ (m2 ++ [y]))), none), ?_, rfl⟩
  · rw [mem_mmatch_plus]
    exact ⟨a, b :: (m1 ++ x :: (m2 ++ y :: m3)), [], rfl, hws, List.nil_prefix, rfl, rfl⟩
  · simp only [List.length_singleton, List.drop_succ_cons, List.drop_zero]
    rw [mem_mmatch_cat]
    refine ⟨([b], none), ?_, (m1 ++ ([x] ++ (m2 ++ [y])), none), ?_, rfl⟩
    · rw [mem_mmatch_plus]
      exact ⟨b, m1 ++ x :: (m2 ++ y :: m3), [], rfl, hdg, List.nil_prefix, rfl, rfl⟩
    · simp only [List.length_singleton, List.drop_succ_cons, List.drop_zero]
      exact h3456

theorem specRow_of_rowTest (line : List Char) (h : rowTest line = true) :
    specRowAmended line = true := by
  unfold rowTest at h
  rw [pySearch_iff] at h
  obtain ⟨pre, post, heq, hne⟩ := h
  obtain ⟨m, hm⟩ := List.exists_mem_of_ne_nil _ hne
  unfold tablePattern at hm
  rw [mem_mmatch_cat] at hm
  obtain ⟨x1, hx1, y1, hy1, -⟩ := hm
  rw [mem_mmatch_plus] at hx1
  obtain ⟨c0, rest0, u0, hpost, hc0, hu0pre, hu0all, hx1eq⟩ := hx1
  subst hpost
  subst hx1eq
  obtain ⟨t0, ht0⟩ := hu0pre
  have hdrop1 : (c0 :: rest0).drop (c0 :: u0, (none : Option (List Char))).1.length = t0 := by
    simp only [List.length_cons, List.drop_succ_cons]
    rw [← ht0, List.drop_left]
  rw [hdrop1] at hy1
  rw [mem_mmatch_cat] at hy1
  obtain ⟨x2, hx2, y2, hy2, -⟩ := hy1
  rw [mem_mmatch_plus] at hx2
  obtain ⟨d0, rest1, u1, ht0eq, hd0, hu1pre, hu1all, hx2eq⟩ := hx2
  subst ht0eq
  subst hx2eq
  obtain ⟨t1, ht1⟩ := hu1pre
  have hdrop2 : (d0 :: rest1).drop (d0 :: u1, (none : Option (List Char))).1.length = t1 := by
    simp only [List.length_cons, List.drop_succ_cons]
    rw [← ht1, List.drop_left]
  rw [hdrop2] at hy2
  rw [mem_mmatch_cat] at hy2
  obtain ⟨x3, hx3, y3, hy3, -⟩ := hy2
  obtain ⟨u2, g3⟩ := x3
  rw [mem_mmatch_star] at hx3
  obtain ⟨hu2pre, hu2all, rfl⟩ := hx3
  obtain ⟨t2, ht2⟩ := hu2pre
  have hdrop3 : t1.drop (u2, (none : Option (List Char))).1.length = t2 := by
    rw [← ht2, List.drop_left]
  rw [hdrop3] at hy3
  rw [mem_mmatch_cat] at hy3
  obtain ⟨x4, hx4, y4, hy4, -⟩ := hy3
  rw [mem_mmatch_plus] at hx4
  obtain ⟨e0, rest2, u3, ht2eq, he0, hu3pre, hu3all, hx4eq⟩ := hx4
  subst ht2eq
  subst hx4eq
  obtain ⟨t3, ht3⟩ := hu3pre
  have hdrop4 : (e0 :: rest2).drop (e0 :: u3, (none : Option (List Char))).1.length = t3 := by
    simp only [List.length_cons, List.drop_succ_cons]
    rw [← ht3, List.drop_left]
  rw [hdrop4] at hy4
  rw [mem_mmatch_cat] at hy4
  obtain ⟨x5, hx5, y5, hy5, -⟩ := hy4
  obtain ⟨u4, g5⟩ := x5
  rw [mem_mmatch_star] at hx5
  obtain ⟨hu4pre, hu4all, rfl⟩ := hx5
  obtain ⟨t4, ht4⟩ := hu4pre
  have hdrop5 : t3.drop (u4, (none : Option (List Char))).1.length = t4 := by
    rw [← ht4, List.drop_left]
  rw [hdrop5] at hy5
  rw [mem_mmatch_plus] at hy5
  obtain ⟨f0, rest3, u5, ht4eq, hf0, -, -, -⟩ := hy5
  subst ht4eq
  -- now count the digits available after d0
  have hcount : 2 ≤ (rest1.filter pyIsDigit).length := by
    rw [← ht1, ← ht2, ← ht3, ← ht4]
    simp only [List.filter_append, List.filter_cons, he0, hf0, if_true,
      List.length_append, List.length_cons]
    omega
  -- place the final whitespace character immediately before d0
  rw [(specRowAmended_iff line)]
  rcases List.eq_nil_or_concat u0 with hu0 | ⟨w, aL, hu0⟩
  · subst hu0
    simp only [List.nil_append] at ht0
    subst ht0
    subst heq
    exact ⟨pre, c0, d0, rest1, rfl, hc0, hd0, hcount⟩
  · subst hu0
    have haL : pyIsSpace aL = true := by
      rw [List.all_eq_true] at hu0all
      exact hu0all aL (by simp)
    subst heq
    refine ⟨pre ++ c0 :: w, aL, d0, rest1, ?_, haL, hd0, hcount⟩
    rw [← ht0]
    simp

/-- Claim C2, counterexample: the line `"1 2 3"` contains three
whitespace-separated numeric tokens in sequence, yet the detector's test
`re.search(r'\s+\d+.*\d+.*\d+', line)` fails on it (the regex needs a
whitespace character before the first digit run), so the claimed iff is
false. -/
theorem C2_numeric_row_counterexample :
    specRowC2 (str "1 2 3") = true ∧ rowTest (str "1 2 3") = false :=
  ⟨by decide, by decide⟩

/-- Claim C2, amended: a (newline-free) line is treated as a numeric table
row iff some whitespace character in it is immediately followed by a digit
with at least two further digits occurring later in the line; a line
failing this test closes (or leaves empty) the current run, and a line
passing it extends the run with the stripped line. -/
theorem C2_numeric_row_amended (line : List Char) (hnl : '\n' ∉ line) :
    rowTest line = specRowAmended line ∧
    (rowTest line = false → ∀ (ls cur : List (List Char)) (acc : List CandidateTable),
      extractTablesGo (line :: ls) cur acc =
        extractTablesGo ls [] (acc ++ (emitRun cur).toList)) ∧
    (rowTest line = true → ∀ (ls cur : List (List Char)) (acc : List CandidateTable),
      extractTablesGo (line :: ls) cur acc =
        extractTablesGo ls (cur ++ [pyStrip line]) acc) := by
  refine ⟨?_, fun hf ls cur acc => extractTablesGo_cons_neg _ _ _ _ hf,
    fun ht ls cur acc => extractTablesGo_cons_pos _ _ _ _ ht⟩
  by_cases h : specRowAmended line = true
  · rw [h, rowTest_of_specRow line hnl h]
  · have hfalse : specRowAmended line = false := Bool.eq_false_iff.mpr h
    rw [hfalse]
    cases hr : rowTest line
    · rfl
    · exact absurd (specRow_of_rowTest line hr) h

/-- Witness for C2's amended theorem on the newline-free line `" 1 2 3"`. -/
theorem C2_numeric_row_amended_witness :
    rowTest (str " 1 2 3") = specRowAmended (str " 1 2 3") :=
  (C2_numeric_row_amended (str " 1 2 3") (by decide)).1
